import Mathlib

/-!
# Verification of the rover relay system

A shallow embedding of the core logic of the rover repository
(`pi_rover_system.py`, `pc_rc_sender.py`) together with theorems
settling the specification's claims about it.

Bytes are modelled as natural numbers; byte strings as `List Nat`
(a well-formedness predicate `BytesOk` bounds each entry below 256
where a claim needs it).  Wall-clock instants from `time.monotonic()`
are modelled as natural numbers counting milliseconds, so that the
source constants `0.5 s`, `0.05 s` and the 5-second log bucket become
`500`, `50` and `now / 5000`.
-/

set_option maxRecDepth 100000

namespace Rover

/-- Every entry of the byte string is an actual byte value. -/
def BytesOk (l : List Nat) : Prop := ∀ b ∈ l, b < 256

instance (l : List Nat) : Decidable (BytesOk l) := by
  unfold BytesOk; infer_instance

/-- `IBUS_FRAME_LEN = 32` from `pi_rover_system.py`. -/
def IBUS_FRAME_LEN : Nat := 32

/-- `IBUS_HEADER = b"\x20\x40"` from `pi_rover_system.py`. -/
def IBUS_HEADER : List Nat := [0x20, 0x40]

/-- `struct.unpack_from("<H", frame, off)`: the little-endian unsigned
16-bit value at byte offset `off` (out-of-range bytes default to 0;
every use in the source is guarded by a length check that makes the
offsets in range). -/
def u16le (frame : List Nat) (off : Nat) : Nat :=
  frame.getD off 0 + 256 * frame.getD (off + 1) 0

/-- The 14 channel values of a frame:
`[struct.unpack_from("<H", frame, 2 + 2 * i)[0] for i in range(14)]`. -/
def ibusChannels (frame : List Nat) : List Nat :=
  (List.range 14).map fun i => u16le frame (2 + 2 * i)

/-- `parse_ibus_frame` from `pi_rover_system.py` (identical in
`pc_rc_sender.py`): `None` unless the length is exactly 32, the first
two bytes equal the header, and the stored checksum equals
`(0xFFFF - (sum(frame[:30]) & 0xFFFF)) & 0xFFFF`; on success the list
of 14 channel values. -/
def parse_ibus_frame (frame : List Nat) : Option (List Nat) :=
  if frame.length ≠ IBUS_FRAME_LEN ∨ frame.take 2 ≠ IBUS_HEADER then
    none
  else if (0xFFFF - ((frame.take 30).sum % 0x10000)) % 0x10000 ≠ u16le frame 30 then
    none
  else some (ibusChannels frame)

/-- The acceptance condition exactly as the specification words it
(used to compare the spec's description with the source decoder):
length exactly 32, first two bytes equal the header constant, and the
little-endian 16-bit value at offset 30 equals
`(0xFFFF − sum(bytes[0:30])) mod 0x10000` over the integers. -/
def decodeAcceptsSpec (b : List Nat) : Prop :=
  b.length = 32 ∧ b.take 2 = IBUS_HEADER ∧
    (u16le b 30 : Int) = (0xFFFF - ((b.take 30).sum : Int)) % 0x10000

instance (b : List Nat) : Decidable (decodeAcceptsSpec b) := by
  unfold decodeAcceptsSpec; infer_instance

/-- A sample frame accepted by the decoder: header, all 14 channels
zero, checksum `0xFF9F = 65535 - (0x20 + 0x40)` stored little-endian. -/
def goodFrame : List Nat := [0x20, 0x40] ++ List.replicate 28 0 ++ [0x9F, 0xFF]

/-- A 32-byte datagram with a correct header but a checksum of zero,
which full decoding rejects. -/
def badChecksumFrame : List Nat := [0x20, 0x40] ++ List.replicate 30 0

/-- `read_ibus_frame` from `pc_rc_sender.py`: scan a serial byte stream
for the header `0x20 0x40`, then read the remaining 30 bytes.  The
stream is modelled as the list of bytes the serial port will deliver
before the next timeout; an exhausted list models `ser.read` returning
fewer bytes than requested (a timeout), on which the source returns
`None`.  `ser.read(30)` returning short is modelled by the
`30 ≤ length` guard. -/
def read_ibus_frame : List Nat → Option (List Nat)
  | [] => none
  | first :: s1 =>
    if first ≠ 0x20 then read_ibus_frame s1
    else
      match s1 with
      | [] => none
      | second :: s2 =>
        if second = 0x20 then
          match s2 with
          | [] => none
          | third :: s3 =>
            if third = 0x40 then
              if 30 ≤ s3.length then some (0x20 :: 0x40 :: s3.take 30) else none
            else if third = 0x20 then
              read_ibus_frame s3
            else
              read_ibus_frame s3
        else if second ≠ 0x40 then read_ibus_frame s2
        else if 30 ≤ s2.length then some (0x20 :: 0x40 :: s2.take 30) else none

/-- One entry of `SharedState.logs`: the dict
`{"id": ..., "ts": ..., "src": ..., "msg": ...}` built by `add_log`. -/
structure LogEntry where
  id : Nat
  ts : Nat
  src : String
  msg : String
deriving DecidableEq

/-- The fields of `SharedState` from `pi_rover_system.py` that the
verified logic reads or writes (the lock is the concurrency discipline,
not data, and is not modelled; each operation below is one critical
section). `logs` models the `collections.deque(maxlen=1000)` ring. -/
structure SharedState where
  last_rc_time : Nat := 0
  last_rc_sender : Nat := 0
  packets_rx : Nat := 0
  packets_uart_tx : Nat := 0
  uart_rx_lines : Nat := 0
  blink_active : Bool := false
  momentary_active : Bool := false
  relay_state : Bool := false
  logs : List LogEntry := []
  next_log_id : Nat := 1

/-- `SharedState.add_log`: append an entry carrying `next_log_id`,
increment the id, and let the `maxlen=1000` deque evict from the left
when the ring is full. -/
def add_log (s : SharedState) (ts : Nat) (src msg : String) : SharedState :=
  { s with
    logs := (s.logs ++ [(⟨s.next_log_id, ts, src, msg⟩ : LogEntry)]).drop
      ((s.logs ++ [(⟨s.next_log_id, ts, src, msg⟩ : LogEntry)]).length - 1000)
    next_log_id := s.next_log_id + 1 }

/-- `SharedState.get_logs_since`: all retained entries with id strictly
greater than the cursor, in stored order. -/
def get_logs_since (s : SharedState) (since_id : Nat) : List LogEntry :=
  s.logs.filter fun e => since_id < e.id

/-- A sequence of `add_log` calls (timestamp, source tag, message). -/
def addMany (s : SharedState) : List (Nat × String × String) → SharedState
  | [] => s
  | x :: rest => addMany (add_log s x.1 x.2.1 x.2.2) rest

/-- The invariant of the log ring: ids strictly increase in append
order, the ring holds at most its capacity of 1000 entries, and every
retained id is below the next id to be assigned. -/
def LogInv (s : SharedState) : Prop :=
  (s.logs.map LogEntry.id).Pairwise (· < ·) ∧
    s.logs.length ≤ 1000 ∧
    ∀ e ∈ s.logs, e.id < s.next_log_id

instance (s : SharedState) : Decidable (LogInv s) := by
  unfold LogInv; infer_instance

/-- The blink-phase update at the top of `GpioController._update_loop`:
`if now - last_blink_time > 0.5: blink_state = not blink_state;
last_blink_time = now`, on the state pair
`(blink_state, last_blink_time)`, times in milliseconds. -/
def blinkTick : Bool × Nat → Nat → Bool × Nat
  | (b, last), now => if 500 < now - last then (!b, now) else (b, last)

/-- One tick of `GpioController._update_loop`: update the blink phase,
resolve the target level by priority (momentary over blink over low),
drive the physical pin only when `GPIO_AVAILABLE`, and publish
`relay_state`.  Returns the updated shared state, the new
`(blink_state, last_blink_time)` locals, and the list of levels written
to the physical output this tick. -/
def arbTick (gpio_available : Bool) (st : SharedState) (blink_state : Bool)
    (last_blink_time now : Nat) : SharedState × (Bool × Nat) × List Bool :=
  let p := blinkTick (blink_state, last_blink_time) now
  let target : Bool :=
    if st.momentary_active then true
    else if st.blink_active then p.1
    else false
  ({ st with relay_state := target }, p,
    if gpio_available then [target] else [])

/-- The liveness check at the bottom of `bridge_loop` (lines 665-678):
given the loop-local `last_rx_time` (0 meaning no frame ever) and
`last_no_rx_log_sec`, decide whether to emit a rate-limited log entry
at instant `now` and update the bucket marker.  `int(now) // 5` over
seconds becomes `now / 5000` over milliseconds; the marker is an `Int`
because it is initialised to `-10`. -/
def livenessStep (last_rx_time : Nat) (last_no_rx_log_sec : Int) (now : Nat) :
    Int × Bool :=
  if last_rx_time = 0 then
    if ((now / 5000 : Nat) : Int) ≠ last_no_rx_log_sec then
      (((now / 5000 : Nat) : Int), true)
    else (last_no_rx_log_sec, false)
  else if (500 : Int) < (now : Int) - (last_rx_time : Int) then
    if ((now / 5000 : Nat) : Int) ≠ last_no_rx_log_sec then
      (((now / 5000 : Nat) : Int), true)
    else (last_no_rx_log_sec, false)
  else (last_no_rx_log_sec, false)

/-- Iterate `livenessStep` over a list of poll instants (no frame
arrives during the stretch, so `last_rx` is fixed) and collect the
instants at which a log entry is emitted. -/
def runLive (last_rx : Nat) : Int → List Nat → List Nat
  | _, [] => []
  | s, t :: ts =>
    let r := livenessStep last_rx s t
    if r.2 then t :: runLive last_rx r.1 ts else runLive last_rx r.1 ts

/-- Result of one iteration of `bridge_loop`. -/
structure BridgeStepResult where
  st : SharedState
  last_rx_time : Nat
  last_no_rx_log_sec : Int
  uart_writes : List (List Nat)

/-- The UDP-receive block of one `bridge_loop` iteration (lines
617-646): when the socket polled readable and `recvfrom` delivered a
nonempty datagram, stamp `last_rc_time`/`last_rc_sender`, count it,
forward it verbatim over UART exactly when the serial handle is open,
the datagram is 32 bytes long and starts with the iBUS header (counting
the forward), and emit the periodic/first-frame log entries.  Returns
the shared state, the loop-local `last_rx_time` and the list of UART
writes performed. -/
def udpReceive (uart_open : Bool) (st : SharedState) (last_rx_time : Nat)
    (dgram : Option (List Nat × Nat)) (now_rx ts : Nat) :
    SharedState × Nat × List (List Nat) :=
  match dgram with
  | none => (st, last_rx_time, [])
  | some (data, addr) =>
    if data = [] then (st, last_rx_time, [])
    else
      let st1 := { st with
        last_rc_time := now_rx
        last_rc_sender := addr
        packets_rx := st.packets_rx + 1 }
      let fwd :=
        if uart_open ∧ data.length = IBUS_FRAME_LEN ∧ data.take 2 = IBUS_HEADER then
          ({ st1 with packets_uart_tx := st1.packets_uart_tx + 1 }, [data])
        else (st1, ([] : List (List Nat)))
      let st2 := fwd.1
      let st3 :=
        if st2.packets_rx % 50 = 0 then
          add_log st2 ts "RC" "Relayed 50 iBUS frames to ESP32"
        else st2
      let st4 :=
        if st3.packets_rx = 1 then
          add_log st3 ts "RC" "First UDP frame"
        else st3
      (st4, now_rx, fwd.2)

/-- One iteration of the `while True` body of `bridge_loop` in
`pi_rover_system.py` (lines 615-678).  `dgram` is the datagram
delivered by `sock.recvfrom` when the socket polled readable (`none`
when it did not); `uart_open` says whether `uart_dev` is a live serial
handle; `now_rx` and `now_live` are the two `time.monotonic()` reads of
the iteration and `ts` the wall-clock stamp used for log entries.  The
UART-ingestion block (lines 649-663) only reads from the serial port
and appends ESP32 log lines; it performs no serial write and touches
none of the fields below, so it is not modelled.  The successful-write
path of `with suppress(Exception): uart_dev.write(data)` is modelled;
a raising write would merely skip the write and its counter. -/
def bridgeStep (uart_open : Bool) (st : SharedState) (last_rx_time : Nat)
    (last_no_rx_log_sec : Int) (dgram : Option (List Nat × Nat))
    (now_rx now_live ts : Nat) : BridgeStepResult :=
  let recv := udpReceive uart_open st last_rx_time dgram now_rx ts
  let lv := livenessStep recv.2.1 last_no_rx_log_sec now_live
  let st6 :=
    if lv.2 then
      if recv.2.1 = 0 then
        add_log recv.1 ts "PI" "Waiting for first RC frame from PC sender"
      else
        add_log recv.1 ts "PI" "RC signal lost - sent NO SIGNAL to ESP32"
    else recv.1
  { st := st6
    last_rx_time := recv.2.1
    last_no_rx_log_sec := lv.1
    uart_writes := recv.2.2 }

-- ── helper lemmas about bytes, sums and list surgery ────────────────────────

theorem getD_lt_of_bytesOk {l : List Nat} (h : BytesOk l) (i : Nat) :
    l.getD i 0 < 256 := by
  by_cases hi : i < l.length
  · rw [List.getD_eq_getElem l 0 hi]
    exact h _ (l.getElem_mem hi)
  · rw [List.getD_eq_default l 0 (Nat.le_of_not_lt hi)]
    omega

theorem take_set_of_le (l : List Nat) (i v n : Nat) (h : n ≤ i) :
    (l.set i v).take n = l.take n := by
  induction l generalizing i n with
  | nil => simp
  | cons a t ih =>
    cases i with
    | zero =>
      cases Nat.le_zero.mp h
      simp
    | succ j =>
      cases n with
      | zero => simp
      | succ m => simpa using ih j m (by omega)

theorem take_set_of_lt (l : List Nat) (i v n : Nat) (h : i < n) :
    (l.set i v).take n = (l.take n).set i v := by
  induction l generalizing i n with
  | nil => simp
  | cons a t ih =>
    cases i with
    | zero =>
      cases n with
      | zero => omega
      | succ m => simp
    | succ j =>
      cases n with
      | zero => omega
      | succ m => simpa using ih j m (by omega)

theorem getD_set_ne (l : List Nat) (i v j : Nat) (h : i ≠ j) :
    (l.set i v).getD j 0 = l.getD j 0 := by
  induction l generalizing i j with
  | nil => simp
  | cons a t ih =>
    cases i with
    | zero => cases j with
      | zero => omega
      | succ k => simp
    | succ m => cases j with
      | zero => simp
      | succ k => simpa using ih m k (by omega)

theorem getD_take_of_lt (l : List Nat) (j n : Nat) (h : j < n) :
    (l.take n).getD j 0 = l.getD j 0 := by
  induction l generalizing j n with
  | nil => simp
  | cons a t ih =>
    cases n with
    | zero => omega
    | succ m =>
      cases j with
      | zero => simp
      | succ k => simpa using ih k m (by omega)

theorem sum_set (l : List Nat) (i v : Nat) (h : i < l.length) :
    (l.set i v).sum + l.getD i 0 = l.sum + v := by
  induction l generalizing i with
  | nil => simp at h
  | cons a t ih =>
    cases i with
    | zero => simp [Nat.add_comm, Nat.add_left_comm]
    | succ j =>
      have := ih j (by simpa using h)
      have hset : (a :: t).set (j + 1) v = a :: t.set j v := rfl
      rw [hset]
      simp only [List.sum_cons, List.getD_cons_succ]
      omega

/-- The decoder either rejects or returns exactly the 14 channel values. -/
theorem getD_set_self (l : List Nat) (i v : Nat) (h : i < l.length) :
    (l.set i v).getD i 0 = v := by
  induction l generalizing i with
  | nil => simp at h
  | cons a t ih =>
    cases i with
    | zero => simp
    | succ j => simpa using ih j (by simpa using h)

theorem parse_ibus_frame_cases (b : List Nat) :
    parse_ibus_frame b = none ∨ parse_ibus_frame b = some (ibusChannels b) := by
  unfold parse_ibus_frame
  split_ifs <;> simp

/-- The source checksum computation (`sum & 0xFFFF`, then subtract from
`0xFFFF`, then `& 0xFFFF`) agrees with the specification's integer
formulation `(0xFFFF − sum) mod 0x10000`. -/
theorem checksum_nat_int (S E : Nat) :
    (0xFFFF - S % 0x10000) % 0x10000 = E ↔
      (E : Int) = (0xFFFF - (S : Int)) % 0x10000 := by
  omega

/-- Acceptance by the source decoder coincides with the acceptance
condition as the specification words it. -/
theorem parse_ibus_frame_some_iff (b : List Nat) :
    parse_ibus_frame b = some (ibusChannels b) ↔ decodeAcceptsSpec b := by
  unfold parse_ibus_frame decodeAcceptsSpec IBUS_FRAME_LEN
  split_ifs with h1 h2
  · refine iff_of_false (by simp) fun hs => ?_
    rcases hs with ⟨hl, hh, -⟩
    rcases h1 with h1 | h1 <;> exact h1 (by assumption)
  · refine iff_of_false (by simp) fun hs => ?_
    rcases hs with ⟨-, -, hck⟩
    exact h2 ((checksum_nat_int _ _).mpr hck)
  · push_neg at h1
    push_neg at h2
    exact iff_of_true rfl ⟨h1.1, h1.2, (checksum_nat_int _ _).mp h2⟩

/-- C2: for every byte string `b`, the decoder returns the 14 decoded
channel values if and only if `b` has length exactly 32, its first two
bytes equal the header constant `0x20 0x40`, and the little-endian
16-bit value at offset 30 equals `(0xFFFF − sum(b[0:30])) mod 0x10000`;
in every other case it returns `none`.  In particular every input whose
length differs from 32 is rejected, and every 32-byte input whose first
two bytes differ from the header is rejected. -/
theorem decode_characterization (b : List Nat) :
    (parse_ibus_frame b = some (ibusChannels b) ↔ decodeAcceptsSpec b) ∧
    (¬ decodeAcceptsSpec b → parse_ibus_frame b = none) ∧
    (b.length ≠ 32 → parse_ibus_frame b = none) ∧
    (b.length = 32 → b.take 2 ≠ IBUS_HEADER → parse_ibus_frame b = none) := by
  have hiff := parse_ibus_frame_some_iff b
  have hcases := parse_ibus_frame_cases b
  have hnone : ¬ decodeAcceptsSpec b → parse_ibus_frame b = none := by
    intro hs
    rcases hcases with h | h
    · exact h
    · exact absurd (hiff.mp h) hs
  refine ⟨hiff, hnone, fun hl => hnone fun hs => hl hs.1,
    fun _ hh => hnone fun hs => hh hs.2.1⟩

/-- Witness for `decode_characterization`: a concrete accepted frame
and a concrete short datagram that is rejected. -/
theorem decode_characterization_witness :
    parse_ibus_frame goodFrame = some (ibusChannels goodFrame) ∧
    parse_ibus_frame [0x20] = none :=
  ⟨(decode_characterization goodFrame).1.mpr (by decide),
    (decode_characterization [0x20]).2.2.1 (by decide)⟩

/-- C10: the decoder is total — on any byte string it returns either
`none` or a list of exactly 14 integers, each in `[0, 65535]`. -/
theorem decode_total (b : List Nat) (h : BytesOk b) :
    parse_ibus_frame b = none ∨
      ∃ cs, parse_ibus_frame b = some cs ∧ cs.length = 14 ∧
        ∀ c ∈ cs, c ≤ 65535 := by
  rcases parse_ibus_frame_cases b with h0 | h0
  · exact Or.inl h0
  · refine Or.inr ⟨ibusChannels b, h0, by simp [ibusChannels], ?_⟩
    intro c hc
    simp only [ibusChannels, List.mem_map, List.mem_range] at hc
    obtain ⟨i, -, rfl⟩ := hc
    have h1 := getD_lt_of_bytesOk h (2 + 2 * i)
    have h2 := getD_lt_of_bytesOk h (2 + 2 * i + 1)
    unfold u16le
    omega

/-- Witness for `decode_total` at a concrete accepted frame. -/
theorem decode_total_witness :
    parse_ibus_frame goodFrame = none ∨
      ∃ cs, parse_ibus_frame goodFrame = some cs ∧ cs.length = 14 ∧
        ∀ c ∈ cs, c ≤ 65535 :=
  decode_total goodFrame (by decide)

/-- C3: corrupting any single byte of the summed region `bytes[0:30]`
of an accepted frame, leaving the two checksum bytes unchanged, makes
the decoder reject the frame: either the header check (bytes 0-1) or
the checksum equation over exact arithmetic mod 2^16 breaks. -/
theorem decode_rejects_single_corruption (f cs : List Nat) (i v : Nat)
    (hok : BytesOk f) (hf : parse_ibus_frame f = some cs) (hi : i < 30)
    (hv : v < 256) (hne : v ≠ f.getD i 0) :
    parse_ibus_frame (f.set i v) = none := by
  have hacc : decodeAcceptsSpec f := by
    rcases parse_ibus_frame_cases f with h | h
    · rw [h] at hf; exact absurd hf (by simp)
    · exact (parse_ibus_frame_some_iff f).mp h
  obtain ⟨hlen, hhdr, hck⟩ := hacc
  by_cases hsmall : i < 2
  · -- a corrupted header byte fails the header comparison
    have hfget : f.getD i 0 = IBUS_HEADER.getD i 0 := by
      rw [← getD_take_of_lt f i 2 hsmall, hhdr]
    have hsetget : (f.set i v).getD i 0 = v := getD_set_self f i v (by omega)
    have hne' : (f.set i v).take 2 ≠ IBUS_HEADER := by
      intro hcontra
      have hv' : v = IBUS_HEADER.getD i 0 := by
        rw [← hsetget, ← getD_take_of_lt (f.set i v) i 2 hsmall, hcontra]
      rw [← hfget] at hv'
      exact hne hv'
    unfold parse_ibus_frame
    rw [if_pos (Or.inr hne')]
  · -- a corrupted summed byte breaks the checksum equation
    push_neg at hsmall
    have hlen' : (f.set i v).length = 32 := by simpa using hlen
    have hhdr' : (f.set i v).take 2 = IBUS_HEADER := by
      rw [take_set_of_le f i v 2 hsmall, hhdr]
    have htake30 : (f.set i v).take 30 = (f.take 30).set i v :=
      take_set_of_lt f i v 30 hi
    have hlen30 : (f.take 30).length = 30 := by
      rw [List.length_take]; omega
    have hsum : ((f.take 30).set i v).sum + (f.take 30).getD i 0 =
        (f.take 30).sum + v := sum_set _ i v (by omega)
    have hgot : (f.take 30).getD i 0 = f.getD i 0 := getD_take_of_lt f i 30 hi
    have hbyte : f.getD i 0 < 256 := getD_lt_of_bytesOk hok i
    have hu30 : u16le (f.set i v) 30 = u16le f 30 := by
      unfold u16le
      rw [getD_set_ne f i v 30 (by omega), getD_set_ne f i v 31 (by omega)]
    unfold parse_ibus_frame
    rw [if_neg (by push_neg; exact ⟨hlen', hhdr'⟩)]
    rw [if_pos]
    rw [htake30, hu30]
    have hckNat : (0xFFFF - (f.take 30).sum % 0x10000) % 0x10000 = u16le f 30 :=
      (checksum_nat_int _ _).mpr hck
    omega

/-- Witness for `decode_rejects_single_corruption`: flipping byte 2 of
the sample accepted frame from 0 to 1 makes the decoder reject it. -/
theorem decode_rejects_single_corruption_witness :
    parse_ibus_frame (goodFrame.set 2 1) = none :=
  decode_rejects_single_corruption goodFrame (ibusChannels goodFrame) 2 1
    (by decide) ((parse_ibus_frame_some_iff goodFrame).mpr (by decide))
    (by decide) (by decide) (by decide)

-- ── output arbiter ──────────────────────────────────────────────────────────

/-- C5: at every tick the resolved output level is: high whenever the
momentary request is active (whatever the blink request and phase);
otherwise the current blink phase when blink is enabled; otherwise low.
When momentary and blink are both on the level is high, and the entire
published result is independent of whether the real GPIO driver
(`GPIO_AVAILABLE`) or the simulated one is in use — only the list of
physical-pin writes differs. -/
theorem arbiter_priority (g : Bool) (st : SharedState) (b : Bool) (lbt now : Nat) :
    ((arbTick g st b lbt now).1.relay_state =
      if st.momentary_active then true
      else if st.blink_active then (blinkTick (b, lbt) now).1
      else false) ∧
    (∀ bl : Bool,
      (arbTick g { momentary_active := true, blink_active := bl } b lbt now).1.relay_state
        = true) ∧
    ((arbTick true st b lbt now).1 = (arbTick false st b lbt now).1 ∧
      (arbTick true st b lbt now).2.1 = (arbTick false st b lbt now).2.1) := by
  refine ⟨rfl, fun bl => rfl, rfl, rfl⟩

/-- A tick at most 0.5 s after the last flip leaves the blink phase alone. -/
theorem blinkTick_no_flip (b : Bool) (T u : Nat) (h : u ≤ T + 500) :
    blinkTick (b, T) u = (b, T) := by
  have heq : blinkTick (b, T) u = if 500 < u - T then (!b, u) else (b, T) := rfl
  rw [heq, if_neg]
  omega

/-- A tick strictly more than 0.5 s after the last flip flips the phase. -/
theorem blinkTick_flip (b : Bool) (T u : Nat) (h : T + 500 < u) :
    blinkTick (b, T) u = (!b, u) := by
  have heq : blinkTick (b, T) u = if 500 < u - T then (!b, u) else (b, T) := rfl
  rw [heq, if_pos]
  omega

/-- C6 (amended): the blink phase flips at the first update tick at
which strictly more than 0.5 s of wall-clock time has elapsed since the
previous flip — ticks up to and including the 0.5 s mark leave the
phase alone, so each phase lasts more than 0.5 s and up to 0.5 s plus
one tick interval; the flip instant is quantized to the update grid,
not independent of it. -/
theorem blink_phase_flip (b : Bool) (T : Nat) (ts : List Nat) (t : Nat)
    (hts : ∀ u ∈ ts, u ≤ T + 500) (ht : T + 500 < t) :
    List.foldl blinkTick (b, T) (ts ++ [t]) = (!b, t) := by
  have hsteady : List.foldl blinkTick (b, T) ts = (b, T) := by
    induction ts with
    | nil => rfl
    | cons u us ih =>
      rw [List.foldl_cons, blinkTick_no_flip b T u (hts u (by simp))]
      exact ih fun x hx => hts x (by simp [hx])
  rw [List.foldl_append, hsteady, List.foldl_cons, blinkTick_flip b T t ht]
  rfl

/-- Witness for `blink_phase_flip`: with the last flip at 0 ms and
ticks at 50 and 100 ms, the tick at 501 ms flips the phase. -/
theorem blink_phase_flip_witness :
    List.foldl blinkTick (false, 0) ([50, 100] ++ [501]) = (true, 501) :=
  blink_phase_flip false 0 [50, 100] 501 (by decide) (by decide)

/-- C6 as stated is false: driving `blinkTick` on the arbiter's own
20 Hz grid (ticks every 50 ms) from a flip at time 0, the phase has
still not flipped at the tick 500 ms later, and flips only at 550 ms —
each phase lasts 0.55 s (period 1.1 s), not 0.5 s (period 1.0 s), and
the flip instant depends on the update grid. -/
theorem blink_counterexample :
    List.foldl blinkTick (false, 0) ((List.range 11).map fun n => n * 50)
      = (false, 0) ∧
    List.foldl blinkTick (false, 0) ((List.range 12).map fun n => n * 50)
      = (true, 550) := by
  decide

-- ── bridge liveness rate limiting ───────────────────────────────────────────

/-- `livenessStep` either stays silent and keeps the bucket marker, or
emits and moves the marker to the current 5-second bucket (which then
differs from the old marker). -/
theorem livenessStep_spec (lastRx : Nat) (s : Int) (now : Nat) :
    livenessStep lastRx s now = (s, false) ∨
      (livenessStep lastRx s now = (((now / 5000 : Nat) : Int), true) ∧
        ((now / 5000 : Nat) : Int) ≠ s) := by
  unfold livenessStep
  split_ifs with h1 h2 h3 h4
  · exact Or.inr ⟨rfl, h2⟩
  · exact Or.inl rfl
  · exact Or.inr ⟨rfl, h4⟩
  · exact Or.inl rfl
  · exact Or.inl rfl

/-- An emission with a recorded last frame only happens when the
liveness age strictly exceeds 500 ms. -/
theorem livenessStep_emit_age (lastRx : Nat) (s : Int) (now : Nat)
    (h : (livenessStep lastRx s now).2 = true) (h0 : lastRx ≠ 0) :
    (500 : Int) < (now : Int) - (lastRx : Int) := by
  unfold livenessStep at h
  split_ifs at h <;> simp_all

/-- Unfolding `runLive` over an emitting instant. -/
theorem runLive_cons_emit (lastRx : Nat) (s s' : Int) (t : Nat) (ts : List Nat)
    (h : livenessStep lastRx s t = (s', true)) :
    runLive lastRx s (t :: ts) = t :: runLive lastRx s' ts := by
  simp [runLive, h]

/-- Unfolding `runLive` over a silent instant. -/
theorem runLive_cons_skip (lastRx : Nat) (s s' : Int) (t : Nat) (ts : List Nat)
    (h : livenessStep lastRx s t = (s', false)) :
    runLive lastRx s (t :: ts) = runLive lastRx s' ts := by
  simp [runLive, h]

/-- Every instant emitted from bucket marker `b` lands in a strictly
later bucket, provided the instants are in order and none precedes
bucket `b`. -/
theorem runLive_bucket_gt (lastRx : Nat) (ts : List Nat)
    (hs : List.Sorted (· ≤ ·) ts) (b : Nat) (hb : ∀ t ∈ ts, b ≤ t / 5000) :
    ∀ e ∈ runLive lastRx (b : Int) ts, b < e / 5000 := by
  induction ts generalizing b with
  | nil => simp [runLive]
  | cons t ts ih =>
    obtain ⟨h1, h2⟩ := List.sorted_cons.mp hs
    rcases livenessStep_spec lastRx (b : Int) t with hcase | ⟨hcase, hne⟩
    · intro e he
      rw [runLive_cons_skip lastRx b b t ts hcase] at he
      exact ih h2 b (fun u hu => hb u (by simp [hu])) e he
    · intro e he
      rw [runLive_cons_emit lastRx b _ t ts hcase, List.mem_cons] at he
      have hbt : b < t / 5000 := by
        have := hb t (by simp)
        rcases Nat.lt_or_ge b (t / 5000) with h | h
        · exact h
        · exact absurd (by omega : (t / 5000 : Nat) = b) (by exact_mod_cast hne)
      rcases he with rfl | he
      · exact hbt
      · have := ih h2 (t / 5000)
          (fun u hu => Nat.div_le_div_right (h1 u hu)) e he
        omega

/-- The buckets of the emitted instants are pairwise strictly
increasing (so at most one emission per 5-second bucket), from any
initial bucket marker. -/
theorem runLive_pairwise (lastRx : Nat) (ts : List Nat)
    (hs : List.Sorted (· ≤ ·) ts) :
    ∀ s0 : Int, (runLive lastRx s0 ts).Pairwise fun a b => a / 5000 < b / 5000 := by
  induction ts with
  | nil => intro s0; simp [runLive]
  | cons t ts ih =>
    obtain ⟨h1, h2⟩ := List.sorted_cons.mp hs
    intro s0
    rcases livenessStep_spec lastRx s0 t with hcase | ⟨hcase, hne⟩
    · rw [runLive_cons_skip lastRx s0 s0 t ts hcase]
      exact ih h2 s0
    · rw [runLive_cons_emit lastRx s0 _ t ts hcase]
      refine List.pairwise_cons.mpr ⟨?_, ih h2 _⟩
      exact runLive_bucket_gt lastRx ts h2 (t / 5000)
        (fun u hu => Nat.div_le_div_right (h1 u hu))

/-- When a frame has been received, every emission happens strictly
more than 500 ms after it. -/
theorem runLive_age (lastRx : Nat) (h0 : lastRx ≠ 0) :
    ∀ (ts : List Nat) (s0 : Int) (e : Nat), e ∈ runLive lastRx s0 ts →
      (500 : Int) < (e : Int) - (lastRx : Int) := by
  intro ts
  induction ts with
  | nil => simp [runLive]
  | cons t ts ih =>
    intro s0 e he
    rcases livenessStep_spec lastRx s0 t with hcase | ⟨hcase, -⟩
    · rw [runLive_cons_skip lastRx s0 s0 t ts hcase] at he
      exact ih s0 e he
    · rw [runLive_cons_emit lastRx s0 _ t ts hcase, List.mem_cons] at he
      rcases he with rfl | he
      · exact livenessStep_emit_age lastRx s0 e (by rw [hcase]) h0
      · exact ih _ e he

/-- C7: across any in-order sequence of poll instants with no frame
arriving (`lastRx` fixed; `0` means no frame has ever arrived, in which
case the emission is the "waiting" entry, otherwise the "signal lost"
entry — exactly the branch `bridgeStep` feeds to `add_log`), the
emitted log instants fall in pairwise strictly increasing 5-second
buckets — at most one entry per bucket, not one per poll — and when a
frame was received, every emission is strictly more than 500 ms after
it. -/
theorem liveness_rate_limited (lastRx : Nat) (s0 : Int) (ts : List Nat)
    (hs : List.Sorted (· ≤ ·) ts) :
    ((runLive lastRx s0 ts).Pairwise fun a b => a / 5000 < b / 5000) ∧
    (lastRx ≠ 0 → ∀ e ∈ runLive lastRx s0 ts,
      (500 : Int) < (e : Int) - (lastRx : Int)) :=
  ⟨runLive_pairwise lastRx ts hs s0,
    fun h0 e he => runLive_age lastRx h0 ts s0 e he⟩

/-- Witness for `liveness_rate_limited` at concrete poll instants. -/
theorem liveness_rate_limited_witness :
    ((runLive 100 (-10) [1000, 2000, 7000]).Pairwise
      fun a b => a / 5000 < b / 5000) ∧
    ((100 : Nat) ≠ 0 → ∀ e ∈ runLive 100 (-10) [1000, 2000, 7000],
      (500 : Int) < (e : Int) - ((100 : Nat) : Int)) :=
  liveness_rate_limited 100 (-10) [1000, 2000, 7000] (by decide)

-- ── log ring ────────────────────────────────────────────────────────────────

/-- Unfolding `add_log`: append, then evict from the left past capacity. -/
theorem add_log_logs (s : SharedState) (ts : Nat) (src msg : String) :
    (add_log s ts src msg).logs =
      (s.logs ++ [(⟨s.next_log_id, ts, src, msg⟩ : LogEntry)]).drop
        ((s.logs.length + 1) - 1000) := by
  simp only [add_log, List.length_append, List.length_singleton]

/-- `add_log` in terms of ids: append the next id, evict from the left
past capacity, and advance the id counter. -/
theorem add_log_ids (s : SharedState) (ts : Nat) (src msg : String) :
    (add_log s ts src msg).logs.map LogEntry.id =
      ((s.logs.map LogEntry.id) ++ [s.next_log_id]).drop
        ((s.logs.length + 1) - 1000) ∧
    (add_log s ts src msg).next_log_id = s.next_log_id + 1 := by
  refine ⟨?_, rfl⟩
  rw [add_log_logs, List.map_drop, List.map_append]
  rfl

/-- One ring step at the level of id lists: evicting before a snoc is
the same as evicting after it. -/
theorem drop_snoc_ring (l : List Nat) (e : Nat) (n : Nat) (hl : l.length = n) :
    (l.drop (n - 1000) ++ [e]).drop ((n - (n - 1000)) + 1 - 1000) =
      (l ++ [e]).drop ((n + 1) - 1000) := by
  by_cases hn : n < 1000
  · have d2 : n - (n - 1000) + 1 - 1000 = 0 := by omega
    have d3 : n + 1 - 1000 = 0 := by omega
    have d1 : n - 1000 = 0 := by omega
    rw [d2, d3, d1]
    simp
  · have d2 : n - (n - 1000) + 1 - 1000 = 1 := by omega
    rw [d2,
      List.drop_append_of_le_length (by rw [List.length_drop, hl]; omega),
      List.drop_drop,
      List.drop_append_of_le_length (by rw [hl]; omega)]
    have harith : n - 1000 + 1 = n + 1 - 1000 := by omega
    rw [harith]

/-- `add_log` preserves the log-ring invariant. -/
theorem add_log_inv (s : SharedState) (ts : Nat) (src msg : String)
    (h : LogInv s) : LogInv (add_log s ts src msg) := by
  obtain ⟨h1, h2, h3⟩ := h
  refine ⟨?_, ?_, ?_⟩
  · rw [(add_log_ids s ts src msg).1]
    refine List.Pairwise.sublist (List.drop_sublist _ _) ?_
    rw [List.pairwise_append]
    refine ⟨h1, by simp, ?_⟩
    intro a ha b hb
    rw [List.mem_singleton] at hb
    subst hb
    obtain ⟨e, he, rfl⟩ := List.mem_map.mp ha
    exact h3 e he
  · rw [add_log_logs, List.length_drop, List.length_append, List.length_singleton]
    omega
  · intro e he
    rw [add_log_logs] at he
    have hmem : e ∈ s.logs ++ [(⟨s.next_log_id, ts, src, msg⟩ : LogEntry)] :=
      List.Sublist.mem he (List.drop_sublist _ _)
    rw [List.mem_append, List.mem_singleton] at hmem
    rw [(add_log_ids s ts src msg).2]
    rcases hmem with hmem | rfl
    · exact Nat.lt_succ_of_lt (h3 e hmem)
    · exact Nat.lt_succ_self _

/-- Under the invariant, a "since" query returns exactly the retained
entries with id strictly greater than the cursor, still in strictly
increasing id order. -/
theorem get_logs_since_spec (s : SharedState) (c : Nat) (h : LogInv s) :
    ((get_logs_since s c).map LogEntry.id).Pairwise (· < ·) ∧
    ∀ e, e ∈ get_logs_since s c ↔ e ∈ s.logs ∧ c < e.id := by
  constructor
  · exact List.Pairwise.sublist (List.Sublist.map _ (List.filter_sublist _)) h.1
  · intro e
    unfold get_logs_since
    rw [List.mem_filter]
    simp

/-- Running `addMany` keeps ids equal to the tail of `1, 2, 3, ...`. -/
theorem addMany_ids (xs : List (Nat × String × String)) :
    ∀ (s : SharedState) (n : Nat), s.next_log_id = n + 1 →
      s.logs.map LogEntry.id = (List.range' 1 n).drop (n - 1000) →
      (addMany s xs).logs.map LogEntry.id =
        (List.range' 1 (n + xs.length)).drop ((n + xs.length) - 1000) ∧
      (addMany s xs).next_log_id = (n + xs.length) + 1 := by
  induction xs with
  | nil =>
    intro s n h1 h2
    exact ⟨by simpa using h2, by simpa using h1⟩
  | cons x rest ih =>
    obtain ⟨ts, src, msg⟩ := x
    intro s n h1 h2
    show (addMany (add_log s ts src msg) rest).logs.map LogEntry.id = _ ∧
      (addMany (add_log s ts src msg) rest).next_log_id = _
    have hlen : s.logs.length = n - (n - 1000) := by
      have hc := congrArg List.length h2
      simpa using hc
    have hcat : List.range' 1 (n + 1) = List.range' 1 n ++ [n + 1] := by
      rw [List.range'_concat]
      norm_num [Nat.add_comm]
    have hids : (add_log s ts src msg).logs.map LogEntry.id =
        (List.range' 1 (n + 1)).drop ((n + 1) - 1000) := by
      rw [(add_log_ids s ts src msg).1, h2, h1, hlen, hcat]
      exact drop_snoc_ring (List.range' 1 n) (n + 1) n (by simp)
    have hnext : (add_log s ts src msg).next_log_id = (n + 1) + 1 := by
      rw [(add_log_ids s ts src msg).2, h1]
    have hrec := ih (add_log s ts src msg) (n + 1) hnext hids
    have harith : n + 1 + rest.length = n + (rest.length + 1) := by omega
    rw [harith] at hrec
    have hL : ((ts, src, msg) :: rest : List (Nat × String × String)).length
        = rest.length + 1 := List.length_cons _ _
    rw [hL]
    exact hrec

/-- C8: `add_log` preserves the ring invariant — strictly increasing
ids in append order, at most the capacity of 1000 entries, all ids
below the next id — across any interleaving with queries (queries do
not mutate); under the invariant a "since id" query returns exactly the
retained entries with id strictly greater than the cursor, in ascending
id order; and after `1000 + k` appends from the initial state the ring
holds exactly the newest 1000 entries, with ids `k+1, ..., k+1000`, all
returned by a "since 0" query. -/
theorem log_ring (s : SharedState) (ts : Nat) (src msg : String) (c : Nat)
    (hinv : LogInv s) (k : Nat) (xs : List (Nat × String × String))
    (hlen : xs.length = 1000 + k) :
    LogInv (add_log s ts src msg) ∧
    (((get_logs_since s c).map LogEntry.id).Pairwise (· < ·) ∧
      ∀ e, e ∈ get_logs_since s c ↔ e ∈ s.logs ∧ c < e.id) ∧
    ((addMany {} xs).logs.map LogEntry.id = List.range' (k + 1) 1000 ∧
      get_logs_since (addMany {} xs) 0 = (addMany {} xs).logs) := by
  have h := addMany_ids xs {} 0 rfl (by simp)
  simp only [Nat.zero_add] at h
  rw [hlen] at h
  have hsplit : List.range' 1 (1000 + k) =
      List.range' 1 k ++ List.range' (k + 1) 1000 := by
    have hr := List.range'_append 1 k 1000 1
    rw [Nat.one_mul] at hr
    rw [← hr, Nat.add_comm 1 k]
  have hk : (1000 + k) - 1000 = k := by omega
  have hleft := List.drop_left (List.range' 1 k) (List.range' (k + 1) 1000)
  rw [List.length_range'] at hleft
  have hids : (addMany {} xs).logs.map LogEntry.id = List.range' (k + 1) 1000 := by
    rw [h.1, hk, hsplit, hleft]
  have hfilter : get_logs_since (addMany {} xs) 0 = (addMany {} xs).logs := by
    unfold get_logs_since
    apply List.filter_eq_self.mpr
    intro e he
    have hmem : e.id ∈ (addMany {} xs).logs.map LogEntry.id :=
      List.mem_map_of_mem _ he
    rw [hids, List.mem_range'_1] at hmem
    simp only [decide_eq_true_eq]
    omega
  exact ⟨add_log_inv s ts src msg hinv, get_logs_since_spec s c hinv, hids, hfilter⟩

/-- Witness for `log_ring`: the empty state satisfies the invariant and
1000 identical appends fill the ring with ids `1, ..., 1000`. -/
theorem log_ring_witness :
    LogInv (add_log {} 0 "SYS" "m") ∧
    (((get_logs_since {} 0).map LogEntry.id).Pairwise (· < ·) ∧
      ∀ e, e ∈ get_logs_since {} 0 ↔ e ∈ SharedState.logs {} ∧ 0 < e.id) ∧
    ((addMany {} (List.replicate 1000 (0, "SYS", "m"))).logs.map LogEntry.id
        = List.range' (0 + 1) 1000 ∧
      get_logs_since (addMany {} (List.replicate 1000 (0, "SYS", "m"))) 0
        = (addMany {} (List.replicate 1000 (0, "SYS", "m"))).logs) :=
  log_ring {} 0 "SYS" "m" 0 (by decide) 0
    (List.replicate 1000 (0, "SYS", "m")) (by rw [List.length_replicate])

-- ── bridge loop: reception, forwarding, serial writes ───────────────────────

/-- C9: in one bridge-loop iteration, every byte string written to the
serial sink is the raw received datagram payload forwarded verbatim,
and an iteration with no datagram — in particular one that only runs
the liveness check and emits the "signal lost" log entry — writes
nothing to the serial sink: the bridge never synthesizes a
failsafe/no-signal frame, whatever the log text says. -/
theorem bridge_writes_verbatim (uart : Bool) (st : SharedState) (lrx : Nat)
    (s0 : Int) (dgram : Option (List Nat × Nat)) (nr nl t : Nat) :
    (∀ w ∈ (bridgeStep uart st lrx s0 dgram nr nl t).uart_writes,
      ∃ a, dgram = some (w, a)) ∧
    (dgram = none → (bridgeStep uart st lrx s0 dgram nr nl t).uart_writes = []) := by
  constructor
  · intro w hw
    cases dgram with
    | none =>
      simp only [bridgeStep, udpReceive] at hw
      simp at hw
    | some p =>
      obtain ⟨data, addr⟩ := p
      by_cases hdata : data = []
      · subst hdata
        simp only [bridgeStep, udpReceive] at hw
        simp at hw
      · simp only [bridgeStep, udpReceive] at hw
        rw [if_neg hdata] at hw
        split_ifs at hw <;>
          first
            | (rw [List.mem_singleton] at hw; exact ⟨addr, by rw [hw]⟩)
            | simp at hw
  · intro h
    subst h
    rfl

/-- Witness for `bridge_writes_verbatim`: a forwarded sample frame, and
an empty iteration 600 ms after the last frame (which emits the
"signal lost" log) writing nothing. -/
theorem bridge_writes_verbatim_witness :
    (∃ a, (some (goodFrame, 5) : Option (List Nat × Nat)) = some (goodFrame, a)) ∧
    (bridgeStep true {} 100 (-10) none 100 700 0).uart_writes = [] :=
  ⟨(bridge_writes_verbatim true {} 0 (-10) (some (goodFrame, 5)) 0 600 0).1
      goodFrame (by decide),
    (bridge_writes_verbatim true {} 100 (-10) none 100 700 0).2 rfl⟩

/-- C1 as stated is false: the bridge loop does not run the full
`parse_ibus_frame` validation before forwarding.  A 32-byte datagram
with a correct header but a checksum of zero is rejected by
`parse_ibus_frame`, yet the bridge forwards it verbatim to the serial
sink and updates the receive counter and `last_rc_time` all the same. -/
theorem bridge_forwards_unvalidated :
    parse_ibus_frame badChecksumFrame = none ∧
    (bridgeStep true {} 0 (-10) (some (badChecksumFrame, 7)) 100 100 0).uart_writes
      = [badChecksumFrame] ∧
    (bridgeStep true {} 0 (-10) (some (badChecksumFrame, 7)) 100 100 0).st.packets_rx
      = 1 ∧
    (bridgeStep true {} 0 (-10) (some (badChecksumFrame, 7)) 100 100 0).st.last_rc_time
      = 100 := by
  refine ⟨by decide, rfl, rfl, rfl⟩

theorem udpReceive_packets_rx (uart : Bool) (st : SharedState) (lrx : Nat)
    (data : List Nat) (addr nr t : Nat) (hdata : data ≠ []) :
    (udpReceive uart st lrx (some (data, addr)) nr t).1.packets_rx
      = st.packets_rx + 1 := by
  simp only [udpReceive]
  split_ifs <;> first | exact absurd ‹data = []› hdata | rfl

theorem udpReceive_last_rc_time (uart : Bool) (st : SharedState) (lrx : Nat)
    (data : List Nat) (addr nr t : Nat) (hdata : data ≠ []) :
    (udpReceive uart st lrx (some (data, addr)) nr t).1.last_rc_time = nr := by
  simp only [udpReceive]
  split_ifs <;> first | exact absurd ‹data = []› hdata | rfl

theorem udpReceive_last_rc_sender (uart : Bool) (st : SharedState) (lrx : Nat)
    (data : List Nat) (addr nr t : Nat) (hdata : data ≠ []) :
    (udpReceive uart st lrx (some (data, addr)) nr t).1.last_rc_sender = addr := by
  simp only [udpReceive]
  split_ifs <;> first | exact absurd ‹data = []› hdata | rfl

theorem udpReceive_last_rx (uart : Bool) (st : SharedState) (lrx : Nat)
    (data : List Nat) (addr nr t : Nat) (hdata : data ≠ []) :
    (udpReceive uart st lrx (some (data, addr)) nr t).2.1 = nr := by
  simp only [udpReceive]
  split_ifs <;> first | exact absurd ‹data = []› hdata | rfl

theorem udpReceive_writes (uart : Bool) (st : SharedState) (lrx : Nat)
    (data : List Nat) (addr nr t : Nat) (hdata : data ≠ []) :
    (udpReceive uart st lrx (some (data, addr)) nr t).2.2 =
      (if uart ∧ data.length = IBUS_FRAME_LEN ∧ data.take 2 = IBUS_HEADER then
        [data] else []) := by
  simp only [udpReceive]
  split_ifs <;> first | exact absurd ‹data = []› hdata | rfl

theorem udpReceive_packets_uart_tx (uart : Bool) (st : SharedState) (lrx : Nat)
    (data : List Nat) (addr nr t : Nat) (hdata : data ≠ []) :
    (udpReceive uart st lrx (some (data, addr)) nr t).1.packets_uart_tx =
      st.packets_uart_tx +
        (if uart ∧ data.length = IBUS_FRAME_LEN ∧ data.take 2 = IBUS_HEADER then
          1 else 0) := by
  simp only [udpReceive]
  split_ifs <;> first | exact absurd ‹data = []› hdata | rfl

theorem bridgeStep_st_packets_rx (uart : Bool) (st : SharedState) (lrx : Nat)
    (s0 : Int) (dgram : Option (List Nat × Nat)) (nr nl t : Nat) :
    (bridgeStep uart st lrx s0 dgram nr nl t).st.packets_rx
      = (udpReceive uart st lrx dgram nr t).1.packets_rx := by
  simp only [bridgeStep]
  split_ifs <;> rfl

theorem bridgeStep_st_last_rc_time (uart : Bool) (st : SharedState) (lrx : Nat)
    (s0 : Int) (dgram : Option (List Nat × Nat)) (nr nl t : Nat) :
    (bridgeStep uart st lrx s0 dgram nr nl t).st.last_rc_time
      = (udpReceive uart st lrx dgram nr t).1.last_rc_time := by
  simp only [bridgeStep]
  split_ifs <;> rfl

theorem bridgeStep_st_last_rc_sender (uart : Bool) (st : SharedState) (lrx : Nat)
    (s0 : Int) (dgram : Option (List Nat × Nat)) (nr nl t : Nat) :
    (bridgeStep uart st lrx s0 dgram nr nl t).st.last_rc_sender
      = (udpReceive uart st lrx dgram nr t).1.last_rc_sender := by
  simp only [bridgeStep]
  split_ifs <;> rfl

theorem bridgeStep_st_packets_uart_tx (uart : Bool) (st : SharedState) (lrx : Nat)
    (s0 : Int) (dgram : Option (List Nat × Nat)) (nr nl t : Nat) :
    (bridgeStep uart st lrx s0 dgram nr nl t).st.packets_uart_tx
      = (udpReceive uart st lrx dgram nr t).1.packets_uart_tx := by
  simp only [bridgeStep]
  split_ifs <;> rfl

/-- C1 (amended): for every nonempty datagram — valid or not — the
bridge updates the receive counter, `last_rc_time` (= `lastReceivedAt`)
and the last-sender address; the raw bytes are written to the serial
sink exactly when the serial handle is open, the datagram is exactly 32
bytes and its first two bytes equal the header constant — the checksum
is never checked by the bridge, and a datagram failing the length or
header check is not forwarded but still counted and stamped. -/
theorem bridge_receive_updates (uart : Bool) (st : SharedState) (lrx : Nat)
    (s0 : Int) (data : List Nat) (addr nr nl t : Nat) (hdata : data ≠ []) :
    (bridgeStep uart st lrx s0 (some (data, addr)) nr nl t).st.packets_rx
      = st.packets_rx + 1 ∧
    (bridgeStep uart st lrx s0 (some (data, addr)) nr nl t).st.last_rc_time = nr ∧
    (bridgeStep uart st lrx s0 (some (data, addr)) nr nl t).st.last_rc_sender
      = addr ∧
    (bridgeStep uart st lrx s0 (some (data, addr)) nr nl t).last_rx_time = nr ∧
    (bridgeStep uart st lrx s0 (some (data, addr)) nr nl t).uart_writes
      = (if uart ∧ data.length = IBUS_FRAME_LEN ∧ data.take 2 = IBUS_HEADER then
          [data] else []) ∧
    (bridgeStep uart st lrx s0 (some (data, addr)) nr nl t).st.packets_uart_tx
      = st.packets_uart_tx +
        (if uart ∧ data.length = IBUS_FRAME_LEN ∧ data.take 2 = IBUS_HEADER then
          1 else 0) := by
  refine ⟨?_, ?_, ?_, ?_, ?_, ?_⟩
  · rw [bridgeStep_st_packets_rx]
    exact udpReceive_packets_rx uart st lrx data addr nr t hdata
  · rw [bridgeStep_st_last_rc_time]
    exact udpReceive_last_rc_time uart st lrx data addr nr t hdata
  · rw [bridgeStep_st_last_rc_sender]
    exact udpReceive_last_rc_sender uart st lrx data addr nr t hdata
  · show (udpReceive uart st lrx (some (data, addr)) nr t).2.1 = nr
    exact udpReceive_last_rx uart st lrx data addr nr t hdata
  · show (udpReceive uart st lrx (some (data, addr)) nr t).2.2 = _
    exact udpReceive_writes uart st lrx data addr nr t hdata
  · rw [bridgeStep_st_packets_uart_tx]
    exact udpReceive_packets_uart_tx uart st lrx data addr nr t hdata

/-- Witness for `bridge_receive_updates` at the sample valid frame. -/
theorem bridge_receive_updates_witness :
    (bridgeStep true {} 0 (-10) (some (goodFrame, 5)) 40 40 0).st.packets_rx
      = SharedState.packets_rx {} + 1 ∧
    (bridgeStep true {} 0 (-10) (some (goodFrame, 5)) 40 40 0).st.last_rc_time = 40 ∧
    (bridgeStep true {} 0 (-10) (some (goodFrame, 5)) 40 40 0).st.last_rc_sender
      = 5 ∧
    (bridgeStep true {} 0 (-10) (some (goodFrame, 5)) 40 40 0).last_rx_time = 40 ∧
    (bridgeStep true {} 0 (-10) (some (goodFrame, 5)) 40 40 0).uart_writes
      = (if True ∧ goodFrame.length = IBUS_FRAME_LEN ∧
            goodFrame.take 2 = IBUS_HEADER then [goodFrame] else []) ∧
    (bridgeStep true {} 0 (-10) (some (goodFrame, 5)) 40 40 0).st.packets_uart_tx
      = SharedState.packets_uart_tx {} +
        (if True ∧ goodFrame.length = IBUS_FRAME_LEN ∧
            goodFrame.take 2 = IBUS_HEADER then 1 else 0) :=
  bridge_receive_updates true {} 0 (-10) goodFrame 5 40 40 0 (by decide)

-- ── frame-sync scanner ──────────────────────────────────────────────────────

/-- A non-header first byte is skipped and scanning continues. -/
theorem read_junk (a : Nat) (s : List Nat) (h : a ≠ 0x20) :
    read_ibus_frame (a :: s) = read_ibus_frame s := by
  rw [read_ibus_frame.eq_def]
  simp [h]

/-- Three header-first bytes in a row are all consumed and scanning
continues after them — this is the `0x20 0x20 0x20` branch of the
source, which also discards whatever follows (including a `0x40`). -/
theorem read_triple (s : List Nat) :
    read_ibus_frame (0x20 :: 0x20 :: 0x20 :: s) = read_ibus_frame s := by
  rw [read_ibus_frame.eq_def]
  norm_num

/-- A clean header with at least 30 further bytes yields a frame. -/
theorem read_frame1 (t : List Nat) (h : 30 ≤ t.length) :
    read_ibus_frame (0x20 :: 0x40 :: t) = some (0x20 :: 0x40 :: t.take 30) := by
  rw [read_ibus_frame.eq_def]
  norm_num [h]

/-- A clean header with fewer than 30 further bytes times out. -/
theorem read_frame1_short (t : List Nat) (h : t.length < 30) :
    read_ibus_frame (0x20 :: 0x40 :: t) = none := by
  rw [read_ibus_frame.eq_def]
  norm_num [h]

/-- The `0x20 0x20 0x40` resync branch: the second `0x20` is taken as
the true frame start. -/
theorem read_frame2 (t : List Nat) (h : 30 ≤ t.length) :
    read_ibus_frame (0x20 :: 0x20 :: 0x40 :: t)
      = some (0x20 :: 0x40 :: t.take 30) := by
  rw [read_ibus_frame.eq_def]
  norm_num [h]

/-- The `0x20 0x20 0x40` resync branch with a short read times out. -/
theorem read_frame2_short (t : List Nat) (h : t.length < 30) :
    read_ibus_frame (0x20 :: 0x20 :: 0x40 :: t) = none := by
  rw [read_ibus_frame.eq_def]
  norm_num [h]

/-- A header-first byte followed by a byte that is neither header byte
resets the scan after both. -/
theorem read_second_junk (b : Nat) (s : List Nat) (h1 : b ≠ 0x20) (h2 : b ≠ 0x40) :
    read_ibus_frame (0x20 :: b :: s) = read_ibus_frame s := by
  rw [read_ibus_frame.eq_def]
  norm_num [h1, h2]

/-- Two header-first bytes followed by a byte that is neither header
byte reset the scan after all three. -/
theorem read_third_junk (c : Nat) (s : List Nat) (h1 : c ≠ 0x20) (h2 : c ≠ 0x40) :
    read_ibus_frame (0x20 :: 0x20 :: c :: s) = read_ibus_frame s := by
  rw [read_ibus_frame.eq_def]
  norm_num [h1, h2]

/-- Totality of the scanner, by strong induction on the stream length:
it always terminates with either no frame (`none`) or a 32-byte frame. -/
theorem read_total_bounded (n : Nat) : ∀ s : List Nat, s.length ≤ n →
    read_ibus_frame s = none ∨
      ∃ f, read_ibus_frame s = some f ∧ f.length = 32 := by
  induction n with
  | zero =>
    intro s hs
    have hnil : s = [] := List.eq_nil_of_length_eq_zero (by omega)
    subst hnil
    exact Or.inl rfl
  | succ n ih =>
    intro s hs
    match s with
    | [] => exact Or.inl rfl
    | a :: s1 =>
      by_cases ha : a = 0x20
      · subst ha
        match s1 with
        | [] => exact Or.inl rfl
        | b :: s2 =>
          by_cases hb : b = 0x20
          · subst hb
            match s2 with
            | [] => exact Or.inl rfl
            | c :: s3 =>
              by_cases hc : c = 0x40
              · subst hc
                by_cases hlen : 30 ≤ s3.length
                · refine Or.inr ⟨_, read_frame2 s3 hlen, ?_⟩
                  simp [List.length_take]
                  omega
                · exact Or.inl (read_frame2_short s3 (by omega))
              · by_cases hc2 : c = 0x20
                · subst hc2
                  rw [read_triple]
                  exact ih s3 (by simp at hs ⊢; omega)
                · rw [read_third_junk c s3 hc2 hc]
                  exact ih s3 (by simp at hs ⊢; omega)
          · by_cases hb2 : b = 0x40
            · subst hb2
              by_cases hlen : 30 ≤ s2.length
              · refine Or.inr ⟨_, read_frame1 s2 hlen, ?_⟩
                simp [List.length_take]
                omega
              · exact Or.inl (read_frame1_short s2 (by omega))
            · rw [read_second_junk b s2 hb hb2]
              exact ih s2 (by simp at hs ⊢; omega)
      · rw [read_junk a s1 ha]
        exact ih s1 (by simp at hs ⊢; omega)

/-- A run of `k` header-first bytes followed by the header-second byte
and at least 30 bytes is synchronized at the last first-byte of the
run, provided `k` is not a multiple of 3. -/
theorem read_sync_run (k : Nat) : ∀ tail : List Nat, 1 ≤ k → k % 3 ≠ 0 →
    30 ≤ tail.length →
    read_ibus_frame (List.replicate k 0x20 ++ 0x40 :: tail)
      = some (0x20 :: 0x40 :: tail.take 30) := by
  induction k using Nat.strong_induction_on with
  | _ k ih =>
    intro tail h1 h3 htail
    rcases Nat.lt_or_ge k 3 with hk | hk
    · interval_cases k
      · show read_ibus_frame (0x20 :: 0x40 :: tail) = _
        exact read_frame1 tail htail
      · show read_ibus_frame (0x20 :: 0x20 :: 0x40 :: tail) = _
        exact read_frame2 tail htail
    · obtain ⟨m, rfl⟩ : ∃ m, k = m + 3 := ⟨k - 3, by omega⟩
      show read_ibus_frame
        (0x20 :: 0x20 :: 0x20 :: (List.replicate m 0x20 ++ 0x40 :: tail)) = _
      rw [read_triple]
      exact ih m (by omega) tail (by omega) (by omega) htail

/-- A stream that times out while delivering only header-first bytes
yields no frame rather than failing. -/
theorem read_run_timeout (k : Nat) :
    read_ibus_frame (List.replicate k 0x20) = none := by
  induction k using Nat.strong_induction_on with
  | _ k ih =>
    match k with
    | 0 => rfl
    | 1 => rfl
    | 2 => rfl
    | m + 3 =>
      show read_ibus_frame (0x20 :: 0x20 :: 0x20 :: List.replicate m 0x20) = none
      rw [read_triple]
      exact ih m (by omega)

/-- C4 (amended): for a run of `k ≥ 1` header-first bytes followed by
the header-second byte and at least 30 further bytes, the scanner
returns the 32-byte frame starting at the last first-byte of the run
whenever `k mod 3 ≠ 0` (for `k ≡ 0 mod 3` the resync loop consumes the
header-second byte and the frame is missed); on any stream the scanner
terminates with either a 32-byte frame or no frame, and a timeout
mid-run yields no frame rather than failing. -/
theorem scanner_sync_total :
    (∀ k tail, 1 ≤ k → k % 3 ≠ 0 → 30 ≤ List.length tail →
      read_ibus_frame (List.replicate k 0x20 ++ 0x40 :: tail)
        = some (0x20 :: 0x40 :: tail.take 30)) ∧
    (∀ s, read_ibus_frame s = none ∨
      ∃ f, read_ibus_frame s = some f ∧ f.length = 32) ∧
    (∀ k, read_ibus_frame (List.replicate k 0x20) = none) :=
  ⟨fun k tail h1 h3 ht => read_sync_run k tail h1 h3 ht,
    fun s => read_total_bounded s.length s le_rfl,
    read_run_timeout⟩

/-- Witness for `scanner_sync_total` at concrete streams. -/
theorem scanner_sync_total_witness :
    read_ibus_frame (List.replicate 2 0x20 ++ 0x40 :: List.replicate 30 5)
      = some (0x20 :: 0x40 :: (List.replicate 30 (5 : Nat)).take 30) ∧
    (read_ibus_frame [0x11, 0x22] = none ∨
      ∃ f, read_ibus_frame [0x11, 0x22] = some f ∧ f.length = 32) ∧
    read_ibus_frame (List.replicate 7 0x20) = none :=
  ⟨scanner_sync_total.1 2 (List.replicate 30 5) (by decide) (by decide) (by decide),
    scanner_sync_total.2.1 [0x11, 0x22],
    scanner_sync_total.2.2 7⟩

/-- C4 as stated is false: a run of three header-first bytes followed
by the header-second byte and 30 payload bytes makes the scanner
consume the `0x40` during resynchronization and miss the frame — it
returns no frame instead of the frame starting at the run's last
`0x20`. -/
theorem scanner_misses_run_of_three :
    read_ibus_frame (List.replicate 3 0x20 ++ 0x40 :: List.replicate 30 0) = none ∧
    read_ibus_frame (List.replicate 3 0x20 ++ 0x40 :: List.replicate 30 0) ≠
      some (0x20 :: 0x40 :: (List.replicate 30 (0 : Nat)).take 30) := by
  decide

end Rover
